import Mathlib

/-!
Verification of the core gaze-estimation pipeline of the eye-gaze tracker:
calibration grid layout (`src/calibration.py`), feature normalization
(`src/feature_extraction.py`), the warmup/dwell/abort sampling protocol
(`src/calibration.py`), exponential smoothing (`src/utils.py` together with
`src/inference.py`), and the realtime loop's no-face behavior
(`src/inference.py`).

Numeric values computed by the Python code in IEEE floating point are
modelled exactly: rationals for the grid, smoothing and loop state, reals
for the feature normalizer (whose inter-ocular distance is a Euclidean
norm, hence needs square roots).
-/

namespace EyeGaze

/-! ### Calibration grid — `_grid_points` in `src/calibration.py`

`np.linspace(start, stop, num)` returns `num` evenly spaced values from
`start` to `stop` inclusive; for `num = 1` it returns just `[start]`. -/

def linspace (start stop : ℚ) (num : ℕ) : List ℚ :=
  if num = 1 then [start]
  else (List.range num).map fun i : ℕ =>
    start + (i : ℚ) * (stop - start) / ((num : ℚ) - 1)

/-- Closed form for the `i`-th value of `linspace start stop num`. -/
def linspaceVal (start stop : ℚ) (num i : ℕ) : ℚ :=
  if num = 1 then start
  else start + i * (stop - start) / ((num : ℚ) - 1)

/-- `_grid_points`: the comprehension `[(x, y) for y in ys for x in xs]`,
i.e. a row-major enumeration with `y` as the outer (row) variable. -/
def grid_points (cols rows : ℕ) (margin : ℚ) : List (ℚ × ℚ) :=
  (linspace margin (1 - margin) rows).flatMap fun y =>
    (linspace margin (1 - margin) cols).map fun x => (x, y)

lemma linspace_eq_map (a b : ℚ) (n : ℕ) :
    linspace a b n = (List.range n).map (linspaceVal a b n) := by
  by_cases h : n = 1
  · subst h
    simp [linspace, linspaceVal, List.range_succ, List.range_zero]
  · simp only [linspace, if_neg h]
    exact List.map_congr_left fun i _ => by simp [linspaceVal, h]

lemma length_linspace (a b : ℚ) (n : ℕ) : (linspace a b n).length = n := by
  rw [linspace_eq_map]
  simp

lemma length_flatMap_const {α β : Type} (l : List α) (g : α → List β) (m : ℕ)
    (h : ∀ x ∈ l, (g x).length = m) : (l.flatMap g).length = l.length * m := by
  induction l with
  | nil => simp
  | cons a t ih =>
      rw [List.flatMap_cons, List.length_append, h a (by simp),
        ih (fun x hx => h x (List.mem_cons_of_mem _ hx))]
      simp [List.length_cons, Nat.succ_mul, Nat.add_comm]

lemma grid_length (N : ℕ) : (grid_points N N (3/20)).length = N * N := by
  unfold grid_points
  rw [length_flatMap_const _ _ N (fun x _ => by simp [length_linspace]), length_linspace]

lemma flatMap_fixed_getElem {α β : Type} (g : α → List β) (m : ℕ)
    (hg : ∀ x, (g x).length = m) :
    ∀ (l : List α) (r c : ℕ), c < m → ∀ a, l[r]? = some a →
      (l.flatMap g)[r * m + c]? = (g a)[c]? := by
  intro l
  induction l with
  | nil =>
      intro r c _ a ha
      simp at ha
  | cons x t ih =>
      intro r c hc a ha
      cases r with
      | zero =>
          simp only [List.getElem?_cons_zero, Option.some.injEq] at ha
          subst ha
          rw [List.flatMap_cons, Nat.zero_mul, Nat.zero_add,
            List.getElem?_append_left (by rw [hg]; exact hc)]
      | succ r' =>
          simp only [List.getElem?_cons_succ] at ha
          have hidx : (r' + 1) * m + c = m + (r' * m + c) := by ring
          rw [List.flatMap_cons, hidx,
            List.getElem?_append_right (by rw [hg]; exact Nat.le_add_right m _)]
          rw [hg, Nat.add_sub_cancel_left]
          exact ih r' c hc a ha

lemma linspace_getElem (a b : ℚ) (n r : ℕ) (hr : r < n) :
    (linspace a b n)[r]? = some (linspaceVal a b n r) := by
  rw [linspace_eq_map, List.getElem?_map, List.getElem?_range hr]
  rfl

lemma grid_getElem (N r c : ℕ) (hr : r < N) (hc : c < N) :
    (grid_points N N (3/20))[r * N + c]? =
      some (linspaceVal (3/20) (1 - 3/20) N c, linspaceVal (3/20) (1 - 3/20) N r) := by
  unfold grid_points
  rw [flatMap_fixed_getElem _ N (fun y => by simp [length_linspace]) _ r c hc _
    (linspace_getElem _ _ _ _ hr)]
  rw [List.getElem?_map, linspace_getElem _ _ _ _ hc]
  rfl

lemma linspaceVal_bounds (a b : ℚ) (hab : a ≤ b) (n i : ℕ) (hi : i < n) :
    a ≤ linspaceVal a b n i ∧ linspaceVal a b n i ≤ b := by
  unfold linspaceVal
  by_cases h1 : n = 1
  · simp [h1, hab]
  · have hn : 2 ≤ n := by omega
    have hpos : (0:ℚ) < (n:ℚ) - 1 := by
      have h2 : (2:ℚ) ≤ (n:ℚ) := by exact_mod_cast hn
      linarith
    have hstep_nonneg : 0 ≤ (i:ℚ) * (b - a) / ((n:ℚ) - 1) :=
      div_nonneg (mul_nonneg (Nat.cast_nonneg i) (by linarith)) (by linarith)
    have hi' : (i:ℚ) ≤ (n:ℚ) - 1 := by
      have hle : (i:ℚ) + 1 ≤ (n:ℚ) := by exact_mod_cast hi
      linarith
    have hupper : (i:ℚ) * (b - a) / ((n:ℚ) - 1) ≤ b - a := by
      rw [div_le_iff₀ hpos]
      nlinarith [sub_nonneg.mpr hab]
    constructor
    · simp only [h1, if_false]
      linarith
    · simp only [h1, if_false]
      linarith

lemma grid_mem_bounds (N : ℕ) (p : ℚ × ℚ) (hp : p ∈ grid_points N N (3/20)) :
    3/20 ≤ p.1 ∧ p.1 ≤ 1 - 3/20 ∧ 3/20 ≤ p.2 ∧ p.2 ≤ 1 - 3/20 := by
  unfold grid_points at hp
  rw [List.mem_flatMap] at hp
  obtain ⟨y, hy, hxy⟩ := hp
  rw [List.mem_map] at hxy
  obtain ⟨x, hx, rfl⟩ := hxy
  rw [linspace_eq_map, List.mem_map] at hy hx
  obtain ⟨j, hj, rfl⟩ := hy
  obtain ⟨i, hi, rfl⟩ := hx
  rw [List.mem_range] at hj hi
  have h1 := linspaceVal_bounds (3/20) (1 - 3/20) (by norm_num) N i hi
  have h2 := linspaceVal_bounds (3/20) (1 - 3/20) (by norm_num) N j hj
  exact ⟨h1.1, h1.2, h2.1, h2.2⟩

lemma linspaceVal_step (a b : ℚ) (n i : ℕ) (h2 : 2 ≤ n) :
    linspaceVal a b n (i + 1) - linspaceVal a b n i = (b - a) / ((n:ℚ) - 1) := by
  have h1 : n ≠ 1 := by omega
  unfold linspaceVal
  simp only [h1, if_false]
  push_cast
  ring

/-- C1: for `pointsPerAxis = N` with margin `0.15 = 3/20`, the grid has
exactly `N²` points; the point at row-major index `r·N + c` is
`(x c, y r)` with both axes given by the same linspace values; every
coordinate lies in `[margin, 1 - margin]`; each axis starts at `margin`,
ends at `1 - margin` (for `N ≥ 2`), and has constant consecutive spacing
`(1 - 2·margin)/(N - 1)`, i.e. the values are evenly (linearly) spaced. -/
theorem grid_row_major (N : ℕ) :
    (grid_points N N (3/20)).length = N * N ∧
    (∀ r c : ℕ, r < N → c < N →
      (grid_points N N (3/20))[r * N + c]? =
        some (linspaceVal (3/20) (1 - 3/20) N c, linspaceVal (3/20) (1 - 3/20) N r)) ∧
    (∀ p ∈ grid_points N N (3/20),
      3/20 ≤ p.1 ∧ p.1 ≤ 1 - 3/20 ∧ 3/20 ≤ p.2 ∧ p.2 ≤ 1 - 3/20) ∧
    (linspaceVal (3/20) (1 - 3/20) N 0 = 3/20) ∧
    (2 ≤ N → linspaceVal (3/20) (1 - 3/20) N (N - 1) = 1 - 3/20) ∧
    (∀ i : ℕ, 2 ≤ N →
      linspaceVal (3/20) (1 - 3/20) N (i + 1) - linspaceVal (3/20) (1 - 3/20) N i =
        (1 - 2 * (3/20)) / ((N:ℚ) - 1)) := by
  refine ⟨grid_length N, fun r c hr hc => grid_getElem N r c hr hc,
    fun p hp => grid_mem_bounds N p hp, ?_, ?_, ?_⟩
  · unfold linspaceVal
    by_cases h1 : N = 1 <;> simp [h1]
  · intro h2
    have h1 : N ≠ 1 := by omega
    unfold linspaceVal
    simp only [h1, if_false]
    have hpos : ((N:ℚ) - 1) ≠ 0 := by
      have hc : (2:ℚ) ≤ (N:ℚ) := by exact_mod_cast h2
      linarith
    have hcast : ((N - 1 : ℕ) : ℚ) = (N:ℚ) - 1 := by
      have : 1 ≤ N := by omega
      push_cast [this]
      ring
    rw [hcast]
    field_simp
    ring
  · intro i h2
    rw [linspaceVal_step _ _ _ _ h2]
    norm_num

/-- C1 witness: the theorem instantiated at `N = 3` and the row-major index
`1·3 + 2` (row 1, column 2), with the side conditions discharged there. -/
theorem grid_row_major_witness :
    (grid_points 3 3 (3/20)).length = 3 * 3 ∧
    (grid_points 3 3 (3/20))[1 * 3 + 2]? =
      some (linspaceVal (3/20) (1 - 3/20) 3 2, linspaceVal (3/20) (1 - 3/20) 3 1) ∧
    linspaceVal (3/20) (1 - 3/20) 3 1 - linspaceVal (3/20) (1 - 3/20) 3 0 =
      (1 - 2 * (3/20)) / ((3:ℚ) - 1) :=
  ⟨(grid_row_major 3).1,
   (grid_row_major 3).2.1 1 2 (by norm_num) (by norm_num),
   (grid_row_major 3).2.2.2.2.2 0 (by norm_num)⟩

/-- C10: for `pointsPerAxis = 1` the grid is the single point
`(margin, margin) = (0.15, 0.15)` — the lower linspace endpoint, not the
screen center. -/
theorem grid_single_point : grid_points 1 1 (3/20) = [(3/20, 3/20)] := rfl

/-! ### Feature normalizer — `FeatureExtractor.features_from_frame` in
`src/feature_extraction.py`

Landmark sets are modelled as total functions from the FaceMesh index to a
pixel-space point; the fixed eye index clusters are those of the source.
The inter-ocular denominator is a Euclidean norm, so this section lives in
`ℝ` with `Real.sqrt`. -/

def LEFT_EYE_IDX : List ℕ := [33, 133, 159, 145]
def RIGHT_EYE_IDX : List ℕ := [362, 263, 386, 374]

noncomputable section

/-- `FeatureExtractor._eye_center`: centroid of the selected landmarks. -/
def eye_center (pts : ℕ → ℝ × ℝ) (idxs : List ℕ) : ℝ × ℝ :=
  ((idxs.map fun i => (pts i).1).sum / (idxs.length : ℝ),
   (idxs.map fun i => (pts i).2).sum / (idxs.length : ℝ))

def lcOf (pts : ℕ → ℝ × ℝ) : ℝ × ℝ := eye_center pts LEFT_EYE_IDX

def rcOf (pts : ℕ → ℝ × ℝ) : ℝ × ℝ := eye_center pts RIGHT_EYE_IDX

/-- `np.linalg.norm(rc - lc)`: Euclidean distance of the two centroids. -/
def interocularDist (lc rc : ℝ × ℝ) : ℝ :=
  Real.sqrt ((rc.1 - lc.1) ^ 2 + (rc.2 - lc.2) ^ 2)

/-- `mid = (lc + rc) / 2.0`. -/
def midOf (pts : ℕ → ℝ × ℝ) : ℝ × ℝ :=
  (((lcOf pts).1 + (rcOf pts).1) / 2, ((lcOf pts).2 + (rcOf pts).2) / 2)

@[ext]
structure FeatureVector where
  f1 : ℝ
  f2 : ℝ
  f3 : ℝ
  f4 : ℝ

/-- The emitted 4-scalar vector, with the additive epsilon in the divisor
kept as a parameter (the code uses `1e-6`); see `features_from_landmarks`. -/
def featuresEps (eps : ℝ) (pts : ℕ → ℝ × ℝ) : FeatureVector where
  f1 := ((lcOf pts).1 - (midOf pts).1) / (interocularDist (lcOf pts) (rcOf pts) + eps)
  f2 := ((lcOf pts).2 - (midOf pts).2) / (interocularDist (lcOf pts) (rcOf pts) + eps)
  f3 := ((rcOf pts).1 - (midOf pts).1) / (interocularDist (lcOf pts) (rcOf pts) + eps)
  f4 := ((rcOf pts).2 - (midOf pts).2) / (interocularDist (lcOf pts) (rcOf pts) + eps)

/-- The code's feature vector: `interocular = np.linalg.norm(rc - lc) + 1e-6`
and each eye centroid's offset from the midpoint divided by it. -/
def features_from_landmarks (pts : ℕ → ℝ × ℝ) : FeatureVector :=
  featuresEps (1 / 1000000) pts

/-- Uniform image zoom by a factor `k`, applied to every landmark. -/
def scaleLandmarks (k : ℝ) (pts : ℕ → ℝ × ℝ) : ℕ → ℝ × ℝ :=
  fun i => (k * (pts i).1, k * (pts i).2)

end

/-- C9: the emitted vector is antisymmetric about its midpoint reference:
`f1 = -f3` and `f2 = -f4` exactly, because the reference point is the
midpoint of the two eye centroids; the four scalars carry only two degrees
of freedom. -/
theorem feature_antisymmetry (pts : ℕ → ℝ × ℝ) :
    (features_from_landmarks pts).f1 = -(features_from_landmarks pts).f3 ∧
    (features_from_landmarks pts).f2 = -(features_from_landmarks pts).f4 := by
  unfold features_from_landmarks featuresEps midOf
  exact ⟨by ring, by ring⟩

lemma eye_center_scale (k : ℝ) (pts : ℕ → ℝ × ℝ) (idxs : List ℕ) :
    eye_center (scaleLandmarks k pts) idxs =
      (k * (eye_center pts idxs).1, k * (eye_center pts idxs).2) := by
  unfold eye_center scaleLandmarks
  dsimp only
  rw [List.sum_map_mul_left, List.sum_map_mul_left, mul_div_assoc, mul_div_assoc]

lemma interocularDist_scale (k : ℝ) (hk : 0 ≤ k) (lc rc : ℝ × ℝ) :
    interocularDist (k * lc.1, k * lc.2) (k * rc.1, k * rc.2) =
      k * interocularDist lc rc := by
  unfold interocularDist
  dsimp only
  rw [show (k * rc.1 - k * lc.1) ^ 2 + (k * rc.2 - k * lc.2) ^ 2 =
      k ^ 2 * ((rc.1 - lc.1) ^ 2 + (rc.2 - lc.2) ^ 2) by ring]
  rw [Real.sqrt_mul (sq_nonneg k), Real.sqrt_sq hk]

lemma lcOf_scale (k : ℝ) (pts : ℕ → ℝ × ℝ) :
    lcOf (scaleLandmarks k pts) = (k * (lcOf pts).1, k * (lcOf pts).2) := by
  unfold lcOf
  exact eye_center_scale k pts LEFT_EYE_IDX

lemma rcOf_scale (k : ℝ) (pts : ℕ → ℝ × ℝ) :
    rcOf (scaleLandmarks k pts) = (k * (rcOf pts).1, k * (rcOf pts).2) := by
  unfold rcOf
  exact eye_center_scale k pts RIGHT_EYE_IDX

lemma featuresEps_scale (eps k : ℝ) (hk : 0 < k) (pts : ℕ → ℝ × ℝ) :
    featuresEps eps (scaleLandmarks k pts) = featuresEps (eps / k) pts := by
  have hD : interocularDist (k * (lcOf pts).1, k * (lcOf pts).2)
        (k * (rcOf pts).1, k * (rcOf pts).2) =
      k * interocularDist (lcOf pts) (rcOf pts) :=
    interocularDist_scale k hk.le _ _
  have hden : k * interocularDist (lcOf pts) (rcOf pts) + eps =
      k * (interocularDist (lcOf pts) (rcOf pts) + eps / k) := by
    have hk' : k ≠ 0 := ne_of_gt hk
    field_simp
    ring
  have key : ∀ a b c : ℝ,
      (k * a - (k * b + k * c) / 2) /
          (k * (interocularDist (lcOf pts) (rcOf pts) + eps / k)) =
        (a - (b + c) / 2) / (interocularDist (lcOf pts) (rcOf pts) + eps / k) := by
    intro a b c
    rw [show k * a - (k * b + k * c) / 2 = k * (a - (b + c) / 2) by ring]
    exact mul_div_mul_left _ _ (ne_of_gt hk)
  ext <;> simp only [featuresEps, midOf, lcOf_scale, rcOf_scale, hD, hden] <;>
    exact key _ _ _

/-- A degenerate but legal landmark set: the right-eye cluster sits one
millionth of a pixel away from the left-eye cluster, so the inter-ocular
distance equals the additive epsilon of the code. -/
noncomputable def ptsTiny : ℕ → ℝ × ℝ :=
  fun i => if 200 ≤ i then (1 / 1000000, 0) else (0, 0)

lemma lcOf_ptsTiny : lcOf ptsTiny = (0, 0) := by
  unfold lcOf eye_center ptsTiny LEFT_EYE_IDX
  norm_num

lemma rcOf_ptsTiny : rcOf ptsTiny = (1 / 1000000, 0) := by
  unfold rcOf eye_center ptsTiny RIGHT_EYE_IDX
  norm_num

lemma interocularDist_horiz (x y : ℝ) (h : x ≤ y) :
    interocularDist (x, 0) (y, 0) = y - x := by
  unfold interocularDist
  dsimp only
  rw [show (y - x) ^ 2 + ((0:ℝ) - 0) ^ 2 = (y - x) ^ 2 by ring,
    Real.sqrt_sq (by linarith)]

lemma f1_ptsTiny : (features_from_landmarks ptsTiny).f1 = -(1 / 4) := by
  unfold features_from_landmarks featuresEps midOf
  rw [lcOf_ptsTiny, rcOf_ptsTiny,
    interocularDist_horiz 0 (1 / 1000000) (by norm_num)]
  norm_num

lemma f1_ptsTiny_scaled :
    (features_from_landmarks (scaleLandmarks 1000000 ptsTiny)).f1 =
      -(500000 / 1000001) := by
  unfold features_from_landmarks featuresEps midOf
  rw [lcOf_scale, rcOf_scale, lcOf_ptsTiny, rcOf_ptsTiny]
  dsimp only
  rw [mul_zero, show (1000000:ℝ) * (1 / 1000000) = 1 by norm_num,
    interocularDist_horiz 0 1 (by norm_num)]
  norm_num

/-- C2 counterexample: the claim fails as stated. For the landmark set
`ptsTiny` (the two eye centroids are distinct) and the scale factor
`k = 1000000 > 0`, the first feature changes from `-1/4` to
`-500000/1000001 ≈ -0.5`: a change of about `0.25`, far beyond any
floating-point tolerance.  The `1e-6` epsilon in the divisor does not
scale with `k`, so the quotient is not invariant. -/
theorem feature_scale_counterexample :
    lcOf ptsTiny ≠ rcOf ptsTiny ∧ (0:ℝ) < 1000000 ∧
    (features_from_landmarks (scaleLandmarks 1000000 ptsTiny)).f1 ≠
      (features_from_landmarks ptsTiny).f1 ∧
    1/5 < |(features_from_landmarks (scaleLandmarks 1000000 ptsTiny)).f1 -
      (features_from_landmarks ptsTiny).f1| := by
  refine ⟨?_, by norm_num, ?_, ?_⟩
  · rw [lcOf_ptsTiny, rcOf_ptsTiny]
    intro h
    have h1 := congrArg Prod.fst h
    norm_num at h1
  · rw [f1_ptsTiny, f1_ptsTiny_scaled]
    norm_num
  · rw [f1_ptsTiny, f1_ptsTiny_scaled]
    rw [abs_of_neg (by norm_num)]
    norm_num

/-- C2 amended: scaling every landmark coordinate by `k > 0` changes the
emitted FeatureVector only through the epsilon term: the scaled vector
equals the one computed from the original landmarks with the epsilon
shrunk to `1e-6 / k`.  In particular the epsilon-free normalization
(divisor exactly the inter-ocular distance) is exactly scale invariant;
the code's vector is only approximately so, with error governed by
epsilon relative to the inter-ocular distance. -/
theorem feature_scale_amended (pts : ℕ → ℝ × ℝ) (k : ℝ) (hk : 0 < k) :
    features_from_landmarks (scaleLandmarks k pts) =
      featuresEps (1 / 1000000 / k) pts ∧
    featuresEps 0 (scaleLandmarks k pts) = featuresEps 0 pts := by
  constructor
  · unfold features_from_landmarks
    exact featuresEps_scale (1 / 1000000) k hk pts
  · rw [featuresEps_scale 0 k hk pts, zero_div]

/-- C2 witness: the amended theorem applied to the concrete landmark set
`ptsTiny` with scale factor `k = 2`, whose positivity is discharged here. -/
theorem feature_scale_amended_witness :
    (0:ℝ) < 2 ∧
    (features_from_landmarks (scaleLandmarks 2 ptsTiny) =
        featuresEps (1 / 1000000 / 2) ptsTiny ∧
      featuresEps 0 (scaleLandmarks 2 ptsTiny) = featuresEps 0 ptsTiny) :=
  ⟨by norm_num, feature_scale_amended ptsTiny 2 (by norm_num)⟩

/-! ### Exponential smoothing — `ema` in `src/utils.py`

`run_realtime` (`src/inference.py`) calls `ema(pred_smooth, pred, alpha=0.25)`
on the 2-vector of predicted normalized coordinates; numpy evaluates the
blend componentwise.  `pred_smooth` starts as `None`. -/

def ema (prev : Option ℚ) (new alpha : ℚ) : ℚ :=
  match prev with
  | none => new
  | some p => (1 - alpha) * p + alpha * new

/-- The componentwise application of `ema` to the smoothed 2-vector. -/
def emaVec (prev : Option (ℚ × ℚ)) (new : ℚ × ℚ) (alpha : ℚ) : ℚ × ℚ :=
  (ema (prev.map Prod.fst) new.1 alpha, ema (prev.map Prod.snd) new.2 alpha)

/-- Feeding the same raw prediction into the smoothing update `n` times. -/
def emaIterate (raw : ℚ × ℚ) : ℕ → Option (ℚ × ℚ) → Option (ℚ × ℚ)
  | 0, s => s
  | n + 1, s => emaIterate raw n (some (emaVec s raw (1/4)))

lemma emaVec_none (raw : ℚ × ℚ) (alpha : ℚ) : emaVec none raw alpha = raw := by
  simp [emaVec, ema]

lemma emaVec_some (p raw : ℚ × ℚ) (alpha : ℚ) :
    emaVec (some p) raw alpha =
      ((1 - alpha) * p.1 + alpha * raw.1, (1 - alpha) * p.2 + alpha * raw.2) := by
  simp [emaVec, ema]

lemma emaIterate_some (raw p : ℚ × ℚ) (n : ℕ) :
    emaIterate raw n (some p) =
      some (raw.1 + (3/4) ^ n * (p.1 - raw.1), raw.2 + (3/4) ^ n * (p.2 - raw.2)) := by
  induction n generalizing p with
  | zero =>
      simp only [emaIterate, pow_zero, one_mul]
      exact congrArg some (Prod.ext_iff.mpr ⟨by ring, by ring⟩)
  | succ n ih =>
      show emaIterate raw n (some (emaVec (some p) raw (1/4))) = _
      rw [emaVec_some, ih]
      exact congrArg some (Prod.ext_iff.mpr ⟨by dsimp only; ring, by dsimp only; ring⟩)

/-- C5: the smoothing update yields exactly the raw prediction when no prior
estimate exists; each later update equals `0.75 × previous + 0.25 × raw`;
and feeding the constant raw prediction `(1/2, 1/2)` repeatedly brings the
smoothed estimate within any positive tolerance of `(1/2, 1/2)` after a
bounded number of iterations, from any starting state. -/
theorem ema_smoothing_spec :
    (∀ raw : ℚ × ℚ, ∀ alpha : ℚ, emaVec none raw alpha = raw) ∧
    (∀ p raw : ℚ × ℚ, emaVec (some p) raw (1/4) =
      (3/4 * p.1 + 1/4 * raw.1, 3/4 * p.2 + 1/4 * raw.2)) ∧
    (∀ s : Option (ℚ × ℚ), ∀ tol : ℚ, 0 < tol → ∃ N : ℕ, ∀ n, N ≤ n →
      ∃ q : ℚ × ℚ, emaIterate (1/2, 1/2) n s = some q ∧
        |q.1 - 1/2| < tol ∧ |q.2 - 1/2| < tol) := by
  refine ⟨fun raw alpha => emaVec_none raw alpha,
    fun p raw => by rw [emaVec_some]; norm_num, ?_⟩
  intro s tol htol
  cases s with
  | none =>
      refine ⟨1, fun n hn => ?_⟩
      obtain ⟨m, rfl⟩ : ∃ m, n = m + 1 := ⟨n - 1, by omega⟩
      refine ⟨(1/2, 1/2), ?_, by simpa using htol, by simpa using htol⟩
      show emaIterate (1/2, 1/2) m (some (emaVec none (1/2, 1/2) (1/4))) = _
      rw [emaVec_none, emaIterate_some]
      norm_num
  | some p =>
      set M : ℚ := |p.1 - 1/2| + |p.2 - 1/2| + 1 with hM
      have hMpos : 0 < M := by
        have h1 := abs_nonneg (p.1 - 1/2)
        have h2 := abs_nonneg (p.2 - 1/2)
        rw [hM]
        linarith
      obtain ⟨N, hN⟩ := exists_pow_lt_of_lt_one (div_pos htol hMpos)
        (show (3/4 : ℚ) < 1 by norm_num)
      refine ⟨N, fun n hn => ?_⟩
      have hpow : (3/4 : ℚ) ^ n ≤ (3/4) ^ N :=
        pow_le_pow_of_le_one (by norm_num) (by norm_num) hn
      have hpow_nonneg : (0:ℚ) ≤ (3/4) ^ n := pow_nonneg (by norm_num) n
      have hNM : (3/4 : ℚ) ^ N * M < tol := (lt_div_iff₀ hMpos).mp hN
      refine ⟨((1:ℚ)/2 + (3/4) ^ n * (p.1 - 1/2), (1:ℚ)/2 + (3/4) ^ n * (p.2 - 1/2)),
        by rw [emaIterate_some], ?_, ?_⟩
      · have habs : |(1:ℚ)/2 + (3/4) ^ n * (p.1 - 1/2) - 1/2| =
            (3/4) ^ n * |p.1 - 1/2| := by
          rw [show (1:ℚ)/2 + (3/4) ^ n * (p.1 - 1/2) - 1/2 =
            (3/4) ^ n * (p.1 - 1/2) by ring, abs_mul, abs_of_nonneg hpow_nonneg]
        rw [habs]
        have hb : |p.1 - 1/2| ≤ M := by
          have h2 := abs_nonneg (p.2 - 1/2)
          rw [hM]
          linarith
        calc (3/4 : ℚ) ^ n * |p.1 - 1/2| ≤ (3/4) ^ N * M := by
              have := abs_nonneg (p.1 - 1/2)
              exact mul_le_mul hpow hb this (pow_nonneg (by norm_num) N)
          _ < tol := hNM
      · have habs : |(1:ℚ)/2 + (3/4) ^ n * (p.2 - 1/2) - 1/2| =
            (3/4) ^ n * |p.2 - 1/2| := by
          rw [show (1:ℚ)/2 + (3/4) ^ n * (p.2 - 1/2) - 1/2 =
            (3/4) ^ n * (p.2 - 1/2) by ring, abs_mul, abs_of_nonneg hpow_nonneg]
        rw [habs]
        have hb : |p.2 - 1/2| ≤ M := by
          have h1 := abs_nonneg (p.1 - 1/2)
          rw [hM]
          linarith
        calc (3/4 : ℚ) ^ n * |p.2 - 1/2| ≤ (3/4) ^ N * M := by
              have := abs_nonneg (p.2 - 1/2)
              exact mul_le_mul hpow hb this (pow_nonneg (by norm_num) N)
          _ < tol := hNM

/-- C5 witness: convergence instantiated at the start state `some (0, 0)`
and tolerance `1/100`, whose positivity is discharged here. -/
theorem ema_smoothing_spec_witness :
    (0:ℚ) < 1/100 ∧ ∃ N : ℕ, ∀ n, N ≤ n →
      ∃ q : ℚ × ℚ, emaIterate (1/2, 1/2) n (some (0, 0)) = some q ∧
        |q.1 - 1/2| < 1/100 ∧ |q.2 - 1/2| < 1/100 :=
  ⟨by norm_num, ema_smoothing_spec.2.2 (some (0, 0)) (1/100) (by norm_num)⟩

/-! ### Realtime loop, no-face frames — `run_realtime` in `src/inference.py`

Each captured frame yields either a feature vector or `None`; the fitted
per-axis regressors are abstract functions from the 4 features to one
coordinate.  The returned `Bool` records whether `_draw_hud` ran, i.e.
whether the prediction overlay was rendered on that frame. -/

abbrev Q4 := ℚ × ℚ × ℚ × ℚ

def rtStep (mx my : Q4 → ℚ) (s : Option (ℚ × ℚ)) (feat : Option Q4) :
    Option (ℚ × ℚ) × Bool :=
  match feat with
  | none => (s, false)
  | some v => (some (emaVec s (mx v, my v) (1/4)), true)

def rtRun (mx my : Q4 → ℚ) (s : Option (ℚ × ℚ)) (frames : List (Option Q4)) :
    Option (ℚ × ℚ) :=
  frames.foldl (fun st f => (rtStep mx my st f).1) s

/-- C7: on a frame whose feature extraction returns `None`, the smoothed
estimate is exactly unchanged and the prediction overlay is not drawn; in
particular a run that never extracts a feature leaves the estimate unset. -/
theorem realtime_no_face_skips (mx my : Q4 → ℚ) :
    (∀ s, rtStep mx my s none = (s, false)) ∧
    (∀ frames : List (Option Q4), (∀ f ∈ frames, f = none) →
      ∀ s, rtRun mx my s frames = s) := by
  refine ⟨fun s => rfl, ?_⟩
  intro frames
  induction frames with
  | nil => exact fun _ s => rfl
  | cons f t ih =>
      intro h s
      have hf : f = none := h f (List.mem_cons_self f t)
      subst hf
      exact ih (fun x hx => h x (List.mem_cons_of_mem _ hx)) s

/-- C7 witness: a two-frame run with no face detected on either frame,
under constant-zero regressors, ends with the estimate still unset. -/
theorem realtime_no_face_skips_witness :
    (∀ f ∈ ([none, none] : List (Option Q4)), f = none) ∧
    rtRun (fun _ => 0) (fun _ => 0) none [none, none] = none :=
  ⟨by simp, (realtime_no_face_skips (fun _ => 0) (fun _ => 0)).2 [none, none]
    (by simp) none⟩

/-! ### Calibration sampling protocol — `run_calibration` in `src/calibration.py`

One `Event` per camera poll: whether `cap.read` succeeded (`ret`), what
feature extraction would yield on that frame (`feat`, consulted only in
the dwell phase), and whether `cv2.waitKey` reports ESC at that frame
(`esc`).  The code checks ESC only on frames whose capture succeeded
(`if not ret: continue` precedes the `waitKey` call in both phases).

The warmup `for` loop runs exactly `warmup_frames` iterations, one event
each, collecting nothing.  The dwell `while` loop consumes events until
exactly `dwell_frames` of them had a successful capture and a non-`None`
feature; those and only those are appended as samples labeled with the
current target.  ESC during either phase returns immediately: the `samples`
list is discarded and the CSV write after the point loop never runs.

The inter-target `_flash_ack` only re-renders frames for ~250 ms and
ignores the `waitKey` result, so it can neither collect samples nor abort;
it is modelled as not consuming events.  A run that needs more events than
the stream holds would block in `cap.read` forever; that is the `starved`
exit, on which no effects are observable. -/

structure Event where
  ret : Bool
  feat : Option Q4
  esc : Bool
deriving DecidableEq

abbrev Sample := Q4 × (ℚ × ℚ)

inductive CalExit where
  | aborted
  | starved
deriving DecidableEq

/-- The warmup phase for one target: `warmup_frames` polls, abort on an
observed ESC, no collection. Returns the unconsumed remainder. -/
def warmupLoop : ℕ → List Event → Except CalExit (List Event)
  | 0, evs => .ok evs
  | _ + 1, [] => .error .starved
  | n + 1, e :: evs =>
      if e.ret && e.esc then .error .aborted
      else warmupLoop n evs

/-- The dwell phase for one target `t`: loop until the quota of valid
samples is met; capture misses skip everything, extraction failures are
displayed and ESC-checked but not counted; valid frames are recorded as
`(feature, t)` and ESC-checked. -/
def dwellLoop (t : ℚ × ℚ) : ℕ → List Event → Except CalExit (List Sample × List Event)
  | 0, evs => .ok ([], evs)
  | _ + 1, [] => .error .starved
  | q + 1, e :: evs =>
      if e.ret then
        match e.feat with
        | some v =>
            if e.esc then .error .aborted
            else
              match dwellLoop t q evs with
              | .error x => .error x
              | .ok (s, rest) => .ok ((v, t) :: s, rest)
        | none =>
            if e.esc then .error .aborted
            else dwellLoop t (q + 1) evs
      else dwellLoop t (q + 1) evs

/-- One target: warmup then dwell (the acknowledgement flash has no
observable effect, see the section comment). -/
def calibPoint (warm dw : ℕ) (t : ℚ × ℚ) (evs : List Event) :
    Except CalExit (List Sample × List Event) :=
  match warmupLoop warm evs with
  | .error x => .error x
  | .ok evs1 => dwellLoop t dw evs1

/-- The per-target loop `for i, (nx, ny) in enumerate(points, ...)`. -/
def calibPoints (warm dw : ℕ) : List (ℚ × ℚ) → List Event →
    Except CalExit (List Sample × List Event)
  | [], evs => .ok ([], evs)
  | t :: ts, evs =>
      match calibPoint warm dw t evs with
      | .error x => .error x
      | .ok (s1, evs1) =>
          match calibPoints warm dw ts evs1 with
          | .error x => .error x
          | .ok (s2, rest) => .ok (s1 ++ s2, rest)

/-- `run_calibration`: the whole session over the `_grid_points` targets. -/
def run_calibration (points_per_grid warmup_frames dwell_frames : ℕ)
    (evs : List Event) : Except CalExit (List Sample × List Event) :=
  calibPoints warmup_frames dwell_frames
    (grid_points points_per_grid points_per_grid (3/20)) evs

/-- Externally observable outcome of one `run_calibration` call: the Python
return value (the function body has no `return expr`, so it is `None` on
every path), the resulting contents of `out_csv`, and the sample count of
the `Saved {n} samples` console message, if printed. -/
structure RunEffects where
  retVal : Option ℕ
  csv : Option (List Sample)
  printed : Option ℕ
deriving DecidableEq

/-- Effects of a terminating run, given the pre-existing CSV contents
`prev`; `none` when the run would block forever waiting for frames. -/
def run_calibration_effects (ppg warm dw : ℕ) (evs : List Event)
    (prev : Option (List Sample)) : Option RunEffects :=
  match run_calibration ppg warm dw evs with
  | .error .starved => none
  | .error .aborted => some { retVal := none, csv := prev, printed := none }
  | .ok (s, _) => some { retVal := none, csv := some s, printed := some s.length }

/-- An element failing the predicate makes the count strictly smaller than
the length. -/
lemma countP_lt_length_of_mem {α : Type} (p : α → Bool) (l : List α) (e : α)
    (he : e ∈ l) (hp : p e = false) : l.countP p < l.length := by
  induction l with
  | nil => cases he
  | cons a t ih =>
      rw [List.countP_cons, List.length_cons]
      rcases List.mem_cons.mp he with rfl | hmem
      · rw [hp]
        simpa using Nat.lt_succ_of_le (List.countP_le_length p)
      · have := ih hmem
        split <;> omega

/-- A consumed warmup phase: exactly `n` events, none with an observed ESC. -/
lemma warmupLoop_ok : ∀ (n : ℕ) (evs rest : List Event),
    warmupLoop n evs = .ok rest →
    ∃ pre, evs = pre ++ rest ∧ pre.length = n ∧
      ∀ e ∈ pre, ¬(e.ret = true ∧ e.esc = true) := by
  intro n
  induction n with
  | zero =>
      intro evs rest h
      simp only [warmupLoop, Except.ok.injEq] at h
      exact ⟨[], by simp [h], rfl, by simp⟩
  | succ n ih =>
      intro evs rest h
      cases evs with
      | nil => simp [warmupLoop] at h
      | cons e evs =>
          by_cases hesc : (e.ret && e.esc) = true
          · simp [warmupLoop, hesc] at h
          · rw [warmupLoop, if_neg (by simp [hesc])] at h
            obtain ⟨pre, hpre, hlen, hnone⟩ := ih evs rest h
            refine ⟨e :: pre, by simp [hpre], by simp [hlen], ?_⟩
            intro x hx
            rcases List.mem_cons.mp hx with rfl | hmem
            · intro ⟨h1, h2⟩
              rw [h1, h2] at hesc
              exact hesc rfl
            · exact hnone x hmem

/-- An aborted warmup phase stops at the first observed ESC. -/
lemma warmupLoop_abort : ∀ (n : ℕ) (evs : List Event),
    warmupLoop n evs = .error .aborted →
    ∃ pre e suf, evs = pre ++ e :: suf ∧ e.ret = true ∧ e.esc = true ∧
      ∀ x ∈ pre, ¬(x.ret = true ∧ x.esc = true) := by
  intro n
  induction n with
  | zero =>
      intro evs h
      simp [warmupLoop] at h
  | succ n ih =>
      intro evs h
      cases evs with
      | nil => simp [warmupLoop] at h
      | cons e evs =>
          by_cases hesc : (e.ret && e.esc) = true
          · rcases Bool.and_eq_true_iff.mp hesc with ⟨h1, h2⟩
            exact ⟨[], e, evs, rfl, h1, h2, by simp⟩
          · rw [warmupLoop, if_neg (by simp [hesc])] at h
            obtain ⟨pre, x, suf, hpre, h1, h2, hnone⟩ := ih evs h
            refine ⟨e :: pre, x, suf, by simp [hpre], h1, h2, ?_⟩
            intro y hy
            rcases List.mem_cons.mp hy with rfl | hmem
            · intro ⟨hr, he⟩
              rw [hr, he] at hesc
              exact hesc rfl
            · exact hnone y hmem

/-- A completed dwell phase, fully characterized: the consumed events are a
list prefix; the samples are exactly the features of the valid consumed
frames, in order, labeled with the target; their number is the quota; and
no consumed frame had an observed ESC. -/
lemma dwellLoop_ok (t : ℚ × ℚ) :
    ∀ (evs : List Event) (q : ℕ) (s : List Sample) (rest : List Event),
    dwellLoop t q evs = .ok (s, rest) →
    ∃ pre, evs = pre ++ rest ∧ s.length = q ∧ (∀ x ∈ s, x.2 = t) ∧
      s.map Prod.fst = pre.filterMap (fun e => if e.ret then e.feat else none) ∧
      pre.countP (fun e => e.ret && e.feat.isSome) = q ∧
      ∀ e ∈ pre, ¬(e.ret = true ∧ e.esc = true) := by
  intro evs
  induction evs with
  | nil =>
      intro q s rest h
      cases q with
      | zero =>
          simp only [dwellLoop, Except.ok.injEq, Prod.mk.injEq] at h
          obtain ⟨rfl, rfl⟩ := h
          exact ⟨[], rfl, rfl, by simp, rfl, rfl, by simp⟩
      | succ q' => simp [dwellLoop] at h
  | cons e evs ih =>
      intro q s rest h
      cases q with
      | zero =>
          simp only [dwellLoop, Except.ok.injEq, Prod.mk.injEq] at h
          obtain ⟨rfl, rfl⟩ := h
          exact ⟨[], rfl, rfl, by simp, rfl, rfl, by simp⟩
      | succ q' =>
          by_cases hret : e.ret = true
          · rcases hfeat : e.feat with _ | v
            · by_cases hesc : e.esc = true
              · rw [dwellLoop, if_pos hret, hfeat] at h
                simp [hesc] at h
              · have hescf : e.esc = false := by
                  cases hb : e.esc
                  · rfl
                  · exact absurd hb hesc
                rw [dwellLoop, if_pos hret, hfeat] at h
                simp only [hescf, Bool.false_eq_true, if_false] at h
                obtain ⟨pre, hpre, hlen, hlab, hmap, hcnt, hnoesc⟩ :=
                  ih (q' + 1) s rest h
                refine ⟨e :: pre, by simp [hpre], hlen, hlab, ?_, ?_, ?_⟩
                · rw [List.filterMap_cons]
                  simp only [hret, if_true, hfeat]
                  exact hmap
                · rw [List.countP_cons]
                  simp [hret, hfeat, hcnt]
                · intro x hx
                  rcases List.mem_cons.mp hx with rfl | hmem
                  · rintro ⟨_, h2⟩
                    rw [hescf] at h2
                    cases h2
                  · exact hnoesc x hmem
            · by_cases hesc : e.esc = true
              · rw [dwellLoop, if_pos hret, hfeat] at h
                simp [hesc] at h
              · have hescf : e.esc = false := by
                  cases hb : e.esc
                  · rfl
                  · exact absurd hb hesc
                rw [dwellLoop, if_pos hret, hfeat] at h
                rcases hrec : dwellLoop t q' evs with x | ⟨s', rest'⟩
                · rw [hrec] at h
                  simp [hescf] at h
                · rw [hrec] at h
                  simp only [hescf, Bool.false_eq_true, if_false,
                    Except.ok.injEq, Prod.mk.injEq] at h
                  obtain ⟨rfl, rfl⟩ := h
                  obtain ⟨pre, hpre, hlen, hlab, hmap, hcnt, hnoesc⟩ :=
                    ih q' s' rest' hrec
                  refine ⟨e :: pre, by simp [hpre], by simp [hlen], ?_, ?_, ?_, ?_⟩
                  · intro x hx
                    rcases List.mem_cons.mp hx with rfl | hmem
                    · rfl
                    · exact hlab x hmem
                  · rw [List.map_cons, List.filterMap_cons]
                    simp only [hret, if_true, hfeat]
                    rw [hmap]
                  · rw [List.countP_cons]
                    simp [hret, hfeat, hcnt]
                  · intro x hx
                    rcases List.mem_cons.mp hx with rfl | hmem
                    · rintro ⟨_, h2⟩
                      rw [hescf] at h2
                      cases h2
                    · exact hnoesc x hmem
          · have hretf : e.ret = false := by
              cases hb : e.ret
              · rfl
              · exact absurd hb hret
            rw [dwellLoop, if_neg (by rw [hretf]; exact Bool.false_ne_true)] at h
            obtain ⟨pre, hpre, hlen, hlab, hmap, hcnt, hnoesc⟩ :=
              ih (q' + 1) s rest h
            refine ⟨e :: pre, by simp [hpre], hlen, hlab, ?_, ?_, ?_⟩
            · rw [List.filterMap_cons]
              simp only [hretf, Bool.false_eq_true, if_false]
              exact hmap
            · rw [List.countP_cons]
              simp [hretf, hcnt]
            · intro x hx
              rcases List.mem_cons.mp hx with rfl | hmem
              · rintro ⟨h1, _⟩
                rw [hretf] at h1
                cases h1
              · exact hnoesc x hmem

/-- An aborted dwell phase stops at the first observed ESC. -/
lemma dwellLoop_abort (t : ℚ × ℚ) :
    ∀ (evs : List Event) (q : ℕ),
    dwellLoop t q evs = .error .aborted →
    ∃ pre e suf, evs = pre ++ e :: suf ∧ e.ret = true ∧ e.esc = true ∧
      ∀ x ∈ pre, ¬(x.ret = true ∧ x.esc = true) := by
  intro evs
  induction evs with
  | nil =>
      intro q h
      cases q <;> simp [dwellLoop] at h
  | cons e evs ih =>
      intro q h
      cases q with
      | zero => simp [dwellLoop] at h
      | succ q' =>
          by_cases hret : e.ret = true
          · rcases hfeat : e.feat with _ | v
            · by_cases hesc : e.esc = true
              · exact ⟨[], e, evs, rfl, hret, hesc, by simp⟩
              · have hescf : e.esc = false := by
                  cases hb : e.esc
                  · rfl
                  · exact absurd hb hesc
                rw [dwellLoop, if_pos hret, hfeat] at h
                simp only [hescf, Bool.false_eq_true, if_false] at h
                obtain ⟨pre, x, suf, hpre, h1, h2, hnoesc⟩ := ih (q' + 1) h
                refine ⟨e :: pre, x, suf, by simp [hpre], h1, h2, ?_⟩
                intro y hy
                rcases List.mem_cons.mp hy with rfl | hmem
                · rintro ⟨_, hb⟩
                  rw [hescf] at hb
                  cases hb
                · exact hnoesc y hmem
            · by_cases hesc : e.esc = true
              · exact ⟨[], e, evs, rfl, hret, hesc, by simp⟩
              · have hescf : e.esc = false := by
                  cases hb : e.esc
                  · rfl
                  · exact absurd hb hesc
                rw [dwellLoop, if_pos hret, hfeat] at h
                rcases hrec : dwellLoop t q' evs with x | p
                · rw [hrec] at h
                  simp only [hescf, Bool.false_eq_true, if_false,
                    Except.error.injEq] at h
                  subst h
                  obtain ⟨pre, y, suf, hpre, h1, h2, hnoesc⟩ := ih q' hrec
                  refine ⟨e :: pre, y, suf, by simp [hpre], h1, h2, ?_⟩
                  intro z hz
                  rcases List.mem_cons.mp hz with rfl | hmem
                  · rintro ⟨_, hb⟩
                    rw [hescf] at hb
                    cases hb
                  · exact hnoesc z hmem
                · rw [hrec] at h
                  rcases p with ⟨s', rest'⟩
                  simp [hescf] at h
          · have hretf : e.ret = false := by
              cases hb : e.ret
              · rfl
              · exact absurd hb hret
            rw [dwellLoop, if_neg (by rw [hretf]; exact Bool.false_ne_true)] at h
            obtain ⟨pre, x, suf, hpre, h1, h2, hnoesc⟩ := ih (q' + 1) h
            refine ⟨e :: pre, x, suf, by simp [hpre], h1, h2, ?_⟩
            intro y hy
            rcases List.mem_cons.mp hy with rfl | hmem
            · rintro ⟨hb, _⟩
              rw [hretf] at hb
              cases hb
            · exact hnoesc y hmem

/-- A completed per-target pass consumes a prefix with no observed ESC. -/
lemma calibPoint_ok (warm dw : ℕ) (t : ℚ × ℚ) (evs : List Event)
    (s : List Sample) (rest : List Event)
    (h : calibPoint warm dw t evs = .ok (s, rest)) :
    ∃ pre, evs = pre ++ rest ∧ ∀ e ∈ pre, ¬(e.ret = true ∧ e.esc = true) := by
  unfold calibPoint at h
  rcases hw : warmupLoop warm evs with x | evs1
  · rw [hw] at h
    cases h
  · rw [hw] at h
    obtain ⟨p1, hp1, _, hn1⟩ := warmupLoop_ok warm evs evs1 hw
    obtain ⟨p2, hp2, _, _, _, _, hn2⟩ := dwellLoop_ok t evs1 dw s rest h
    refine ⟨p1 ++ p2, by rw [hp1, hp2, List.append_assoc], ?_⟩
    intro e he
    rcases List.mem_append.mp he with hm | hm
    · exact hn1 e hm
    · exact hn2 e hm

/-- An aborted per-target pass stops at the first observed ESC. -/
lemma calibPoint_abort (warm dw : ℕ) (t : ℚ × ℚ) (evs : List Event)
    (h : calibPoint warm dw t evs = .error .aborted) :
    ∃ pre e suf, evs = pre ++ e :: suf ∧ e.ret = true ∧ e.esc = true ∧
      ∀ x ∈ pre, ¬(x.ret = true ∧ x.esc = true) := by
  unfold calibPoint at h
  rcases hw : warmupLoop warm evs with x | evs1
  · rw [hw] at h
    cases x
    · exact warmupLoop_abort warm evs hw
    · cases h
  · rw [hw] at h
    obtain ⟨p1, hp1, _, hn1⟩ := warmupLoop_ok warm evs evs1 hw
    obtain ⟨p2, e, suf, hp2, h1, h2, hn2⟩ := dwellLoop_abort t evs1 dw h
    refine ⟨p1 ++ p2, e, suf, by rw [hp1, hp2, List.append_assoc], h1, h2, ?_⟩
    intro x hx
    rcases List.mem_append.mp hx with hm | hm
    · exact hn1 x hm
    · exact hn2 x hm

/-- A completed session consumes a prefix with no observed ESC. -/
lemma calibPoints_ok (warm dw : ℕ) :
    ∀ (pts : List (ℚ × ℚ)) (evs : List Event) (s : List Sample)
      (rest : List Event),
    calibPoints warm dw pts evs = .ok (s, rest) →
    ∃ pre, evs = pre ++ rest ∧ ∀ e ∈ pre, ¬(e.ret = true ∧ e.esc = true) := by
  intro pts
  induction pts with
  | nil =>
      intro evs s rest h
      simp only [calibPoints, Except.ok.injEq, Prod.mk.injEq] at h
      exact ⟨[], by simp [h.2], by simp⟩
  | cons t ts ih =>
      intro evs s rest h
      rw [calibPoints] at h
      rcases hpt : calibPoint warm dw t evs with x | ⟨s1, evs1⟩
      · rw [hpt] at h
        cases h
      · rw [hpt] at h
        dsimp only at h
        rcases hr : calibPoints warm dw ts evs1 with x | ⟨s2, rest2⟩
        · rw [hr] at h
          cases h
        · rw [hr] at h
          simp only [Except.ok.injEq, Prod.mk.injEq] at h
          obtain ⟨rfl, rfl⟩ := h
          obtain ⟨p1, hp1, hn1⟩ := calibPoint_ok warm dw t evs s1 evs1 hpt
          obtain ⟨p2, hp2, hn2⟩ := ih evs1 s2 rest2 hr
          refine ⟨p1 ++ p2, by rw [hp1, hp2, List.append_assoc], ?_⟩
          intro e he
          rcases List.mem_append.mp he with hm | hm
          · exact hn1 e hm
          · exact hn2 e hm

/-- An aborted session stops at the first observed ESC. -/
lemma calibPoints_abort (warm dw : ℕ) :
    ∀ (pts : List (ℚ × ℚ)) (evs : List Event),
    calibPoints warm dw pts evs = .error .aborted →
    ∃ pre e suf, evs = pre ++ e :: suf ∧ e.ret = true ∧ e.esc = true ∧
      ∀ x ∈ pre, ¬(x.ret = true ∧ x.esc = true) := by
  intro pts
  induction pts with
  | nil =>
      intro evs h
      simp [calibPoints] at h
  | cons t ts ih =>
      intro evs h
      rw [calibPoints] at h
      rcases hpt : calibPoint warm dw t evs with x | ⟨s1, evs1⟩
      · rw [hpt] at h
        cases x
        · exact calibPoint_abort warm dw t evs hpt
        · cases h
      · rw [hpt] at h
        dsimp only at h
        rcases hr : calibPoints warm dw ts evs1 with x | ⟨s2, rest2⟩
        · rw [hr] at h
          cases x
          · obtain ⟨p1, hp1, hn1⟩ := calibPoint_ok warm dw t evs s1 evs1 hpt
            obtain ⟨p2, e, suf, hp2, h1, h2, hn2⟩ := ih evs1 hr
            refine ⟨p1 ++ p2, e, suf, by rw [hp1, hp2, List.append_assoc], h1, h2, ?_⟩
            intro y hy
            rcases List.mem_append.mp hy with hm | hm
            · exact hn1 y hm
            · exact hn2 y hm
          · cases h
        · rw [hr] at h
          cases h

/-- C3: a completed dwell phase records exactly `q = dwellFrames` samples,
each labeled with the current target; frames whose extraction fails do not
count toward the quota, so the consumed frames number at least `q`, and
strictly more than `q` whenever a consumed frame had a successful capture
but extraction returned `None`. -/
theorem dwell_quota_exact (t : ℚ × ℚ) (q : ℕ) (evs rest : List Event)
    (s : List Sample) (h : dwellLoop t q evs = .ok (s, rest)) :
    s.length = q ∧ (∀ x ∈ s, x.2 = t) ∧
    ∃ pre, evs = pre ++ rest ∧ q ≤ pre.length ∧
      ((∃ e ∈ pre, e.ret = true ∧ e.feat = none) → q < pre.length) := by
  obtain ⟨pre, hpre, hlen, hlab, _, hcnt, _⟩ := dwellLoop_ok t evs q s rest h
  refine ⟨hlen, hlab, pre, hpre, ?_, ?_⟩
  · rw [← hcnt]
    exact List.countP_le_length _
  · rintro ⟨e, he, hr, hf⟩
    rw [← hcnt]
    refine countP_lt_length_of_mem _ pre e he ?_
    show (e.ret && e.feat.isSome) = false
    rw [hr, hf]
    rfl

/-- C3 witness: a dwell quota of 2 over three frames, the middle one a
valid capture whose extraction fails; the phase completes with 2 samples
having consumed all 3 frames, and the quota hypothesis is discharged by
evaluation. -/
theorem dwell_quota_exact_witness :
    ([(((0:ℚ),(0:ℚ),(0:ℚ),(0:ℚ)), ((1:ℚ)/2, (1:ℚ)/2)),
      (((0:ℚ),(0:ℚ),(0:ℚ),(0:ℚ)), ((1:ℚ)/2, (1:ℚ)/2))] : List Sample).length = 2 ∧
    (∀ x ∈ ([(((0:ℚ),(0:ℚ),(0:ℚ),(0:ℚ)), ((1:ℚ)/2, (1:ℚ)/2)),
      (((0:ℚ),(0:ℚ),(0:ℚ),(0:ℚ)), ((1:ℚ)/2, (1:ℚ)/2))] : List Sample),
      x.2 = ((1:ℚ)/2, (1:ℚ)/2)) ∧
    ∃ pre, ([⟨true, some (0,0,0,0), false⟩, ⟨true, none, false⟩,
        ⟨true, some (0,0,0,0), false⟩] : List Event) = pre ++ ([] : List Event) ∧
      2 ≤ pre.length ∧
      ((∃ e ∈ pre, e.ret = true ∧ e.feat = none) → 2 < pre.length) :=
  dwell_quota_exact ((1:ℚ)/2, (1:ℚ)/2) 2
    [⟨true, some (0,0,0,0), false⟩, ⟨true, none, false⟩,
      ⟨true, some (0,0,0,0), false⟩] []
    [(((0:ℚ),(0:ℚ),(0:ℚ),(0:ℚ)), ((1:ℚ)/2, (1:ℚ)/2)),
      (((0:ℚ),(0:ℚ),(0:ℚ),(0:ℚ)), ((1:ℚ)/2, (1:ℚ)/2))] rfl

/-- C4: if the session completes, no consumed frame had an observed ESC
(contrapositive: an ESC observed at any frame of any warmup or dwell phase
prevents completion); and if the session aborts, it does so at the first
observed ESC, the output CSV keeps its pre-existing contents (nothing is
written, no samples of the current or prior targets are persisted), and
nothing is printed. -/
theorem calibration_abort_semantics (ppg warm dw : ℕ) (evs : List Event)
    (prev : Option (List Sample)) :
    (∀ s rest, run_calibration ppg warm dw evs = .ok (s, rest) →
      ∃ pre, evs = pre ++ rest ∧ ∀ e ∈ pre, ¬(e.ret = true ∧ e.esc = true)) ∧
    (run_calibration ppg warm dw evs = .error .aborted →
      run_calibration_effects ppg warm dw evs prev =
        some { retVal := none, csv := prev, printed := none } ∧
      ∃ pre e suf, evs = pre ++ e :: suf ∧ e.ret = true ∧ e.esc = true ∧
        ∀ x ∈ pre, ¬(x.ret = true ∧ x.esc = true)) := by
  constructor
  · intro s rest h
    exact calibPoints_ok warm dw _ evs s rest h
  · intro h
    refine ⟨?_, calibPoints_abort warm dw _ evs h⟩
    unfold run_calibration_effects
    rw [h]

/-- C4 witness: a 1-point session with no warmup and dwell quota 1, aborted
by ESC on its very first dwell frame against a pre-existing CSV, which is
left untouched; the abort hypothesis is discharged by evaluation. -/
theorem calibration_abort_semantics_witness :
    run_calibration 1 0 1 [⟨true, none, true⟩] = .error .aborted ∧
    (run_calibration_effects 1 0 1 [⟨true, none, true⟩]
        (some [(((0:ℚ),(0:ℚ),(0:ℚ),(0:ℚ)), ((0:ℚ),(0:ℚ)))]) =
      some { retVal := none,
             csv := some [(((0:ℚ),(0:ℚ),(0:ℚ),(0:ℚ)), ((0:ℚ),(0:ℚ)))],
             printed := none } ∧
     ∃ pre e suf, ([⟨true, none, true⟩] : List Event) = pre ++ e :: suf ∧
       e.ret = true ∧ e.esc = true ∧
       ∀ x ∈ pre, ¬(x.ret = true ∧ x.esc = true)) :=
  ⟨rfl, (calibration_abort_semantics 1 0 1 [⟨true, none, true⟩]
    (some [(((0:ℚ),(0:ℚ),(0:ℚ),(0:ℚ)), ((0:ℚ),(0:ℚ)))])).2 rfl⟩

/-- C6 counterexample: the claim fails as stated.  A normally completed
1-point run collects one sample (the console message reports count 1) yet
the function's return value is `None`, not the SampleCount; an aborted run
also returns `None`, so the return value carries no Aborted indication
distinguishable from normal completion either. -/
theorem cal_return_counterexample :
    (run_calibration_effects 1 0 1 [⟨true, some (0,0,0,0), false⟩] none).map
        RunEffects.retVal = some none ∧
    (run_calibration_effects 1 0 1 [⟨true, some (0,0,0,0), false⟩] none).map
        RunEffects.printed = some (some 1) ∧
    (run_calibration_effects 1 0 1 [⟨true, none, true⟩] none).map
        RunEffects.retVal = some none :=
  ⟨rfl, rfl, rfl⟩

/-- C6 amended: `run_calibration` returns `None` on every terminating path.
On normal completion the sample count appears only in the printed console
message and the samples only in the written CSV; on abort nothing is
printed and the CSV keeps its previous contents.  Completion and abort are
therefore distinguishable by these side effects, never by the return
value. -/
theorem cal_return_amended (ppg warm dw : ℕ) (evs : List Event)
    (prev : Option (List Sample)) (eff : RunEffects)
    (h : run_calibration_effects ppg warm dw evs prev = some eff) :
    eff.retVal = none ∧
    (∀ s rest, run_calibration ppg warm dw evs = .ok (s, rest) →
      eff.printed = some s.length ∧ eff.csv = some s) ∧
    (run_calibration ppg warm dw evs = .error .aborted →
      eff.printed = none ∧ eff.csv = prev) := by
  unfold run_calibration_effects at h
  rcases hrun : run_calibration ppg warm dw evs with x | ⟨s, rest⟩
  · rw [hrun] at h
    cases x
    · dsimp only at h
      simp only [Option.some.injEq] at h
      subst h
      refine ⟨rfl, ?_, fun _ => ⟨rfl, rfl⟩⟩
      intro s rest h'
      exact Except.noConfusion h'
    · dsimp only at h
      cases h
  · rw [hrun] at h
    dsimp only at h
    simp only [Option.some.injEq] at h
    subst h
    refine ⟨rfl, ?_, ?_⟩
    · intro s' rest' h'
      simp only [Except.ok.injEq, Prod.mk.injEq] at h'
      obtain ⟨rfl, rfl⟩ := h'
      exact ⟨rfl, rfl⟩
    · intro h'
      exact Except.noConfusion h'

/-- C6 witness: the amended theorem applied to the concrete completed
1-point run of `cal_return_counterexample`, whose effects hypothesis is
discharged by evaluation. -/
theorem cal_return_amended_witness :
    ({ retVal := none,
        csv := some [(((0:ℚ),(0:ℚ),(0:ℚ),(0:ℚ)), ((3:ℚ)/20, (3:ℚ)/20))],
        printed := some 1 } : RunEffects).retVal = none ∧
    (∀ s rest, run_calibration 1 0 1
        [⟨true, some (0,0,0,0), false⟩] = .ok (s, rest) →
      ({ retVal := none,
          csv := some [(((0:ℚ),(0:ℚ),(0:ℚ),(0:ℚ)), ((3:ℚ)/20, (3:ℚ)/20))],
          printed := some 1 } : RunEffects).printed = some s.length ∧
      ({ retVal := none,
          csv := some [(((0:ℚ),(0:ℚ),(0:ℚ),(0:ℚ)), ((3:ℚ)/20, (3:ℚ)/20))],
          printed := some 1 } : RunEffects).csv = some s) ∧
    (run_calibration 1 0 1 [⟨true, some (0,0,0,0), false⟩] = .error .aborted →
      ({ retVal := none,
          csv := some [(((0:ℚ),(0:ℚ),(0:ℚ),(0:ℚ)), ((3:ℚ)/20, (3:ℚ)/20))],
          printed := some 1 } : RunEffects).printed = none ∧
      ({ retVal := none,
          csv := some [(((0:ℚ),(0:ℚ),(0:ℚ),(0:ℚ)), ((3:ℚ)/20, (3:ℚ)/20))],
          printed := some 1 } : RunEffects).csv = none) :=
  cal_return_amended 1 0 1 [⟨true, some (0,0,0,0), false⟩] none
    { retVal := none,
      csv := some [(((0:ℚ),(0:ℚ),(0:ℚ),(0:ℚ)), ((3:ℚ)/20, (3:ℚ)/20))],
      printed := some 1 } rfl

end EyeGaze
